import Mathlib

/-!
Verification of the fmods dependency resolver and change planner.

This file shallowly embeds the core of the repository:
  * `src/mod_info.rs` — versions, dependency specs and their parsers;
  * `src/utils.rs` — the worklist resolver (`DependenciesProcessor`,
    `process_dependencies`) and the change planner (`Changes::compute`).

Rust strings are modelled as `List Char` in the parsers and as `String`
for identifiers; `i64` is modelled as `Int` (the resolver only compares
and adds or subtracts one, so no wraparound is reachable there, and the
one place that can overflow — `i64::from_str` inside the version parser —
is modelled with its range check, failing outside the `i64` range); the external
registry (`FactorioApi::get_mod`, a network call) is modelled as a
function `String → Option ModInfo` where `none` stands for a transport
error; the `HashMap<String, ExtendedDependency>` is modelled as an
association list with at most one binding per key (the code only inserts
a key it has just failed to find).  Rust panics (`Option::unwrap`) are
modelled by returning `none`.  The unbounded `while` loop of
`process_dependencies` is modelled with explicit fuel counting batches:
`none` means the loop is still running after that many batches.
Registry lookups performed by a run are reported in an event list so
that claims about lookup behaviour can be stated.
-/

namespace Fmods

/-- Version from `mod_info.rs`: triple of `i64`, modelled as `Int`. -/
structure Version where
  major : Int
  minor : Int
  patch : Int
deriving DecidableEq, Repr

/-- `Ord::cmp` for `Version` from `mod_info.rs` (`impl Ord for Version`). -/
def Version.cmp (a b : Version) : Ordering :=
  if a.major ≠ b.major then (if a.major > b.major then .gt else .lt)
  else if a.minor ≠ b.minor then (if a.minor > b.minor then .gt else .lt)
  else if a.patch ≠ b.patch then (if a.patch > b.patch then .gt else .lt)
  else .eq

/-- Rust `a > b` via `Ord::cmp`. -/
def vgt (a b : Version) : Bool := Version.cmp a b == Ordering.gt

/-- Rust `a >= b` via `Ord::cmp`. -/
def vge (a b : Version) : Bool := Version.cmp a b != Ordering.lt

/-- The characters Rust's `char::is_whitespace` sees in this data
(ASCII whitespace; the ids and versions involved are ASCII). -/
def isWsChar (c : Char) : Bool := c == ' ' || c == '\t' || c == '\n' || c == '\r'

/-- `str::trim_start().trim_end()` on a character list. -/
def trimChars (s : List Char) : List Char :=
  ((s.dropWhile isWsChar).reverse.dropWhile isWsChar).reverse

/-- `str::split('.')` (always yields at least one piece, pieces keep order). -/
def splitOnChar (sep : Char) : List Char → List (List Char)
  | [] => [[]]
  | c :: rest =>
    if c = sep then [] :: splitOnChar sep rest
    else
      match splitOnChar sep rest with
      | [] => [[c]]
      | p :: ps => (c :: p) :: ps

/-- Digit-string value accumulator used by `parse_i64`. -/
def digitsVal : List Char → Nat → Option Nat
  | [], acc => some acc
  | c :: rest, acc =>
    if c.isDigit then digitsVal rest (10 * acc + (c.toNat - 48)) else none

/-- Value of a nonempty all-digit character list. -/
def digitsToNat (cs : List Char) : Option Nat :=
  if cs.isEmpty then none else digitsVal cs 0

/-- Rust `i64::from_str`: optional sign, then a nonempty digit string.
The checked accumulation fails (`Err`) when the value leaves the `i64`
range: above `2^63 - 1` for a non-negative result, above `2^63` in
magnitude for a negative one (digits only grow the accumulated value, so
an intermediate overflow happens exactly when the final value is out of
range). -/
def parse_i64 : List Char → Option Int
  | '+' :: rest => (digitsToNat rest).bind
      (fun n => if n < 2 ^ 63 then some (Int.ofNat n) else none)
  | '-' :: rest => (digitsToNat rest).bind
      (fun n => if n ≤ 2 ^ 63 then some (-(n : Int)) else none)
  | s => (digitsToNat s).bind
      (fun n => if n < 2 ^ 63 then some (Int.ofNat n) else none)

/-- `Version::from_str` from `mod_info.rs`: split on `'.'`, parse each of
the first three pieces as `i64` (a missing piece defaults to `0`), a
parse error anywhere fails the whole parse. -/
def Version.from_str (s : List Char) : Option Version :=
  let parts := splitOnChar '.' s
  match (match parts.get? 0 with | none => some (0 : Int) | some v => parse_i64 v),
        (match parts.get? 1 with | none => some (0 : Int) | some v => parse_i64 v),
        (match parts.get? 2 with | none => some (0 : Int) | some v => parse_i64 v) with
  | some major, some minor, some patch => some ⟨major, minor, patch⟩
  | _, _, _ => none

/-- `DependencyType` from `mod_info.rs`. -/
inductive DependencyType where
  | Conflict
  | Require
  | Optional
deriving DecidableEq, Repr

/-- `Dependency` from `mod_info.rs`. -/
structure Dependency where
  mod_id : String
  version : Option Version
  dependency_type : DependencyType
deriving DecidableEq, Repr

/-- The `replace("(", "").replace(")", "").replace("~", "")` step of
`Dependency::from_str`. -/
def strip_special (s : List Char) : List Char :=
  s.filter (fun c => !(c == '(' || c == ')' || c == '~'))

/-- The `replace("!", "").replace("?", "")` step of `Dependency::from_str`. -/
def strip_marks (s : List Char) : List Char :=
  s.filter (fun c => !(c == '!' || c == '?'))

/-- The `starts_with` kind detection of `Dependency::from_str`. -/
def dep_kind_of : List Char → DependencyType
  | '!' :: _ => DependencyType.Conflict
  | '?' :: _ => DependencyType.Optional
  | _ => DependencyType.Require

/-- `str::split(">=")`: cut at every (leftmost-first) occurrence of the
two-character separator. -/
def splitGe : List Char → List (List Char)
  | [] => [[]]
  | [c] => [[c]]
  | c1 :: c2 :: rest =>
    if c1 = '>' ∧ c2 = '=' then [] :: splitGe rest
    else
      match splitGe (c2 :: rest) with
      | [] => [[c1]]
      | p :: ps => (c1 :: p) :: ps

/-- `Dependency::from_str` from `mod_info.rs`. -/
def Dependency.from_str (s : List Char) : Option Dependency :=
  let clear := strip_special s
  let dt := dep_kind_of clear
  let clear2 := strip_marks clear
  match splitGe clear2 with
  | [p0, p1] =>
    match Version.from_str (trimChars p1) with
    | none => none
    | some v => some ⟨String.mk (trimChars p0), some v, dt⟩
  | _ => some ⟨String.mk (trimChars clear2), none, dt⟩

/-- `ModReleaseInfoJson` from `mod_info.rs`. -/
structure ModReleaseInfoJson where
  dependencies : List Dependency
  factorio_version : Version
deriving DecidableEq, Repr

/-- `ModRelease` from `mod_info.rs`. -/
structure ModRelease where
  version : Version
  info_json : ModReleaseInfoJson
deriving DecidableEq, Repr

/-- `ModInfo` from `mod_info.rs`. -/
structure ModInfo where
  releases : List ModRelease
deriving DecidableEq, Repr

/-- `InstalledMod` from `instance.rs` (field order as in the source). -/
structure InstalledMod where
  version : Version
  name : String
deriving DecidableEq, Repr

/-- The part of `Instance` (`instance.rs`) the resolver and planner read:
the list of installed mods.  The filesystem paths and environment-content
versions are not consulted by `utils.rs`. -/
structure Instance where
  mods : List InstalledMod
deriving DecidableEq, Repr

/-- The external registry: `FactorioApi::get_mod`.  `none` models a
`ureq::Error` (the opaque transport failure). -/
def Registry := String → Option ModInfo

/-- `is_mod_game_content` from `utils.rs`. -/
def is_mod_game_content (id : String) : Bool :=
  id == "base" ||
    id == "quality" ||
    id == "elevated-rails" ||
    id == "space-age"

/-- `ExtendedDependency` from `utils.rs`. -/
structure ExtendedDependency where
  version : Option Version
  dependency_type : DependencyType
  usages_count : Int
deriving DecidableEq, Repr

/-- The mutable state of `DependenciesProcessor`: the worklist and the
`HashMap<String, ExtendedDependency>` (as an association list). -/
structure ProcState where
  need_process : List Dependency
  dependencies : List (String × ExtendedDependency)
deriving DecidableEq, Repr

/-- `HashMap::get` on the association list. -/
def lookupDep (m : List (String × ExtendedDependency)) (k : String) :
    Option ExtendedDependency :=
  (m.find? (fun p => p.1 == k)).map (fun p => p.2)

/-- `HashMap::get_mut` followed by a mutation `f` of the found entry. -/
def modifyDep (m : List (String × ExtendedDependency)) (k : String)
    (f : ExtendedDependency → ExtendedDependency) :
    List (String × ExtendedDependency) :=
  m.map (fun p => if p.1 == k then (p.1, f p.2) else p)

/-- The `usages_count += 1` mutation. -/
def bump_usage (e : ExtendedDependency) : ExtendedDependency :=
  { e with usages_count := e.usages_count + 1 }

/-- The `usages_count -= 1` mutation. -/
def drop_usage (e : ExtendedDependency) : ExtendedDependency :=
  { e with usages_count := e.usages_count - 1 }

/-- `DependenciesProcessor::check_satisfied` from `utils.rs`.  Returns
the boolean answer and the updated state (a successful `Require`
satisfaction against an existing entry bumps that entry's count). -/
def check_satisfied (inst : Instance) (st : ProcState) (dep : Dependency) :
    Bool × ProcState :=
  let installed := inst.mods.find? (fun x => x.name == dep.mod_id)
  let installedSat : Bool :=
    match installed with
    | some installed_mod =>
      match dep.version with
      | some version => vge installed_mod.version version
      | none => true
    | none => false
  if installedSat then (true, st)
  else
    match lookupDep st.dependencies dep.mod_id with
    | some extended_dependency =>
      if dep.dependency_type ≠ DependencyType.Require then (true, st)
      else
        let result : Bool :=
          match dep.version with
          | none => true
          | some dependency_version =>
            match extended_dependency.version with
            | some version => vge version dependency_version
            | none => false
        if result then
          let deps' := modifyDep st.dependencies dep.mod_id bump_usage
          (true, { st with dependencies := deps' })
        else (false, st)
    | none => (false, st)

/-- `DependenciesProcessor::remove_usage` from `utils.rs`. -/
def remove_usage (st : ProcState) (dep : Dependency) : ProcState :=
  match lookupDep st.dependencies dep.mod_id with
  | some _ =>
    let deps' := modifyDep st.dependencies dep.mod_id drop_usage
    { st with dependencies := deps' }
  | none =>
    let deps' := st.dependencies ++ [(dep.mod_id, ⟨dep.version, dep.dependency_type, -1⟩)]
    { st with dependencies := deps' }

/-- The entry mutation performed by `add_dependency` on an existing
entry: bump the count and replace the stored version when the incoming
one is strictly greater (an absent stored version is left absent). -/
def merge_entry (dep : Dependency) (e : ExtendedDependency) : ExtendedDependency :=
  { e with
    usages_count := e.usages_count + 1,
    version :=
      match e.version, dep.version with
      | some version, some dependency_version =>
        if vgt dependency_version version then some dependency_version
        else some version
      | v, _ => v }

/-- The `remove_usages_for` computation of `add_dependency`: when the
incoming version strictly exceeds the stored one and the superseded
release can be identified in the registry answer, its declared
requirement list is scheduled for usage decrements. -/
def removals_for (e : ExtendedDependency) (dep : Dependency)
    (mod_info : Option ModInfo) : Option (List Dependency) :=
  match e.version, dep.version with
  | some version, some dependency_version =>
    if vgt dependency_version version then
      match mod_info with
      | some mi =>
        match mi.releases.find? (fun release => release.version == version) with
        | none => none
        | some release => some release.info_json.dependencies
      | none => none
    else none
  | _, _ => none

/-- `DependenciesProcessor::add_dependency` from `utils.rs`. -/
def add_dependency (st : ProcState) (dep : Dependency) (mod_info : Option ModInfo) :
    ProcState :=
  match lookupDep st.dependencies dep.mod_id with
  | some extended_dependency =>
    let remove_usages_for := removals_for extended_dependency dep mod_info
    let deps' := modifyDep st.dependencies dep.mod_id (merge_entry dep)
    let st' : ProcState := { st with dependencies := deps' }
    match remove_usages_for with
    | some ds => ds.foldl remove_usage st'
    | none => st'
  | none =>
    let deps' := st.dependencies ++ [(dep.mod_id, ⟨dep.version, dep.dependency_type, 1⟩)]
    { st with dependencies := deps' }

/-- `utils::Error` (the `ureq::Error` payload of `ModNotFound` is opaque
and dropped). -/
inductive Error where
  | ModNotFound (id : String)
  | CantFoundSuitableRelease (id : String)
deriving DecidableEq, Repr

/-- `DependenciesProcessor::process_dependency` from `utils.rs`.  The
second component lists the registry lookups (`get_mod` calls) the step
performed. -/
def process_dependency (reg : Registry) (inst : Instance) (st : ProcState)
    (dep : Dependency) : Except Error ProcState × List String :=
  let sat_st := check_satisfied inst st dep
  if sat_st.1 then (Except.ok sat_st.2, [])
  else
    match dep.dependency_type with
    | DependencyType.Require =>
      if is_mod_game_content dep.mod_id then
        (Except.ok (add_dependency sat_st.2 dep none), [])
      else
        match reg dep.mod_id with
        | none => (Except.error (Error.ModNotFound dep.mod_id), [dep.mod_id])
        | some mod_info =>
          match ((match dep.version with
                 | some version => mod_info.releases.find? (fun x => x.version == version)
                 | none => mod_info.releases.getLast?) : Option ModRelease) with
          | none => (Except.error (Error.CantFoundSuitableRelease dep.mod_id), [dep.mod_id])
          | some mod_release =>
            let st1 : ProcState :=
              { sat_st.2 with need_process :=
                  sat_st.2.need_process ++ mod_release.info_json.dependencies }
            (Except.ok (add_dependency st1 { dep with version := some mod_release.version }
                (some mod_info)), [dep.mod_id])
    | _ => (Except.ok (add_dependency sat_st.2 dep none), [])

/-- The `for dependency in take(&mut processor.need_process)` body: process
the batch in order, short-circuiting on the first error. -/
def process_batch (reg : Registry) (inst : Instance) :
    ProcState → List Dependency → Except Error ProcState × List String
  | st, [] => (Except.ok st, [])
  | st, d :: rest =>
    match process_dependency reg inst st d with
    | (Except.error e, lg) => (Except.error e, lg)
    | (Except.ok st', lg) =>
      match process_batch reg inst st' rest with
      | (res, lg') => (res, lg ++ lg')

/-- The `while processor.need_process.len() != 0` loop, with fuel counting
batches.  `none` means the loop was still running when the fuel ran out. -/
def process_loop (reg : Registry) (inst : Instance) :
    Nat → ProcState → Option (Except Error ProcState × List String)
  | 0, _ => none
  | fuel + 1, st =>
    if st.need_process.isEmpty then some (Except.ok st, [])
    else
      match process_batch reg inst { st with need_process := [] } st.need_process with
      | (Except.error e, lg) => some (Except.error e, lg)
      | (Except.ok st', lg) =>
        match process_loop reg inst fuel st' with
        | none => none
        | some (res, lg') => some (res, lg ++ lg')

/-- `process_dependencies` from `utils.rs`: seed the worklist with one
`Require` spec, run the loop, keep the entries with positive count. -/
def process_dependencies (reg : Registry) (inst : Instance) (fuel : Nat)
    (id : String) (version : Version) :
    Option (Except Error (List Dependency) × List String) :=
  let st : ProcState :=
    { need_process := [⟨id, some version, DependencyType.Require⟩], dependencies := [] }
  match process_loop reg inst fuel st with
  | none => none
  | some (Except.error e, lg) => some (Except.error e, lg)
  | some (Except.ok st', lg) =>
    some (Except.ok ((st'.dependencies.filter (fun p => 0 < p.2.usages_count)).map
      (fun x => ⟨x.1, x.2.version, x.2.dependency_type⟩)), lg)

/-- `InstallChange` from `utils.rs`. -/
structure InstallChange where
  id : String
  version : Version
deriving DecidableEq, Repr

/-- `UpdateChange` from `utils.rs`. -/
structure UpdateChange where
  id : String
  old_version : Version
  new_version : Version
deriving DecidableEq, Repr

/-- `Changes` from `utils.rs`. -/
structure Changes where
  install : List InstallChange
  update : List UpdateChange
  conflicts : List String
deriving DecidableEq, Repr

/-- One iteration of the loop in `Changes::compute`.  `none` models the
panic of `dependency.version.clone().unwrap()`. -/
def compute_step (inst : Instance) (acc : Option Changes) (dep : Dependency) :
    Option Changes :=
  match acc with
  | none => none
  | some c =>
    match dep.dependency_type with
    | DependencyType.Conflict =>
      if (inst.mods.find? (fun x => x.name == dep.mod_id)).isSome then
        some { c with conflicts := c.conflicts ++ [dep.mod_id] }
      else some c
    | DependencyType.Require =>
      if is_mod_game_content dep.mod_id then some c
      else
        match dep.version with
        | none => none
        | some version =>
          match inst.mods.find? (fun x => x.name == dep.mod_id) with
          | some installed =>
            if vgt version installed.version then
              some { c with update :=
                c.update ++ [⟨dep.mod_id, installed.version, version⟩] }
            else some c
          | none =>
            some { c with install := c.install ++ [⟨dep.mod_id, version⟩] }
    | DependencyType.Optional => some c

/-- `Changes::compute` from `utils.rs`; `none` models the `unwrap` panic. -/
def Changes.compute (inst : Instance) (dependencies : List Dependency) :
    Option Changes :=
  dependencies.foldl (compute_step inst) (some ⟨[], [], []⟩)

end Fmods

namespace Fmods

/-! Concrete versions, snapshots and registries used by the claims. -/

/-- The version 1.0.0. -/
def v100 : Version := ⟨1, 0, 0⟩

/-- The version 2.0.0. -/
def v200 : Version := ⟨2, 0, 0⟩

/-- The version 3.0.0. -/
def v300 : Version := ⟨3, 0, 0⟩

/-- An arbitrary `factorio_version` for release metadata (never read by
the resolver or planner). -/
def fv : Version := ⟨1, 1, 0⟩

/-- A snapshot with nothing installed. -/
def instEmpty : Instance := ⟨[]⟩

/-- The spec `a >= 1.0.0`. -/
def depReqA1 : Dependency := ⟨"a", some v100, DependencyType.Require⟩

/-- The spec `a >= 2.0.0`. -/
def depReqA2 : Dependency := ⟨"a", some v200, DependencyType.Require⟩

/-- The spec `b` (a `Require` with no version). -/
def depReqB : Dependency := ⟨"b", none, DependencyType.Require⟩

/-- The spec `? a` (an `Optional` with no version). -/
def depOptA : Dependency := ⟨"a", none, DependencyType.Optional⟩

/-- The spec `! z` (a `Conflict` with no version). -/
def depConZ : Dependency := ⟨"z", none, DependencyType.Conflict⟩

/-- Snapshot for the C1 scenario: `z` is installed at 1.0.0. -/
def instZ : Instance := ⟨[⟨v100, "z"⟩]⟩

/-- Registry for the C1 scenario: `r` has one release, 1.0.0, declaring
`! z`. -/
def regC1 : Registry := fun id =>
  if id = "r" then some ⟨[⟨v100, ⟨[depConZ], fv⟩⟩]⟩ else none

/-- Registry for the C2 scenario: `r` has release 1.0.0 declaring
`? a` then `a >= 1.0.0`; `a` has release 1.0.0 declaring `a >= 1.0.0`. -/
def regC2 : Registry := fun id =>
  if id = "r" then some ⟨[⟨v100, ⟨[depOptA, depReqA1], fv⟩⟩]⟩
  else if id = "a" then some ⟨[⟨v100, ⟨[depReqA1], fv⟩⟩]⟩
  else none

/-- Registry for the C3 scenario: `r` has release 1.0.0 declaring
`a >= 1.0.0`, `a >= 2.0.0`, `b`; `a` has releases 1.0.0 (declaring `b`)
and 2.0.0 (declaring nothing). -/
def regC3 : Registry := fun id =>
  if id = "r" then some ⟨[⟨v100, ⟨[depReqA1, depReqA2, depReqB], fv⟩⟩]⟩
  else if id = "a" then some ⟨[⟨v100, ⟨[depReqB], fv⟩⟩, ⟨v200, ⟨[], fv⟩⟩]⟩
  else none

/-- Registry for the C4 counterexample: `r` has release 1.0.0 declaring
`a >= 1.0.0` then `a >= 2.0.0`; `a` has releases 1.0.0 and 2.0.0 with no
further requirements. -/
def regC4 : Registry := fun id =>
  if id = "r" then some ⟨[⟨v100, ⟨[depReqA1, depReqA2], fv⟩⟩]⟩
  else if id = "a" then some ⟨[⟨v100, ⟨[], fv⟩⟩, ⟨v200, ⟨[], fv⟩⟩]⟩
  else none

/-- A registry with a single mod `m` whose only release is 1.0.0 (used by
the C7 witness). -/
def regW : Registry := fun id =>
  if id = "m" then some ⟨[⟨v100, ⟨[], fv⟩⟩]⟩ else none

/-- A registry with mod `a` at releases 1.0.0 and 2.0.0, both without
requirements (used by the C5 witness). -/
def regAB : Registry := fun id =>
  if id = "a" then some ⟨[⟨v100, ⟨[], fv⟩⟩, ⟨v200, ⟨[], fv⟩⟩]⟩ else none

/-- The recurring state of the C2 scenario: the worklist holds
`a >= 1.0.0`, the entry for `a` was created by the version-less optional
spec and hence stores no version, so the demand is never satisfied and
every batch re-fetches `a` and re-enqueues the same spec. -/
def c2state (k : Int) : ProcState :=
  ⟨[depReqA1],
   [("r", ⟨some v100, DependencyType.Require, 1⟩),
    ("a", ⟨none, DependencyType.Optional, k⟩)]⟩

/-- The state after the first batch of the C2 scenario. -/
def c2st1 : ProcState :=
  ⟨[depOptA, depReqA1], [("r", ⟨some v100, DependencyType.Require, 1⟩)]⟩

/-- The initial state of the C2 scenario. -/
def c2init : ProcState :=
  ⟨[⟨"r", some v100, DependencyType.Require⟩], []⟩

/-- Claim C1.  The claim says a `Conflict` spec on an installed package
`z` leads to exactly one `ConflictAction` for `z`.  The code disagrees:
`check_satisfied` treats any installed package as satisfying a
version-less spec regardless of its kind, so the `! z` spec is dropped
during resolution, never reaches the resolved set, and the computed plan
has an empty `conflicts` list. -/
theorem c1_conflict_on_installed_emits_no_action :
    process_dependencies regC1 instZ 10 "r" v100 =
      some (Except.ok [⟨"r", some v100, DependencyType.Require⟩], ["r"])
    ∧ Changes.compute instZ [⟨"r", some v100, DependencyType.Require⟩] =
      some ⟨[⟨"r", v100⟩], [], []⟩ :=
  ⟨rfl, rfl⟩

theorem c2_loop_state (fuel : Nat) :
    ∀ k : Int, process_loop regC2 instEmpty fuel (c2state k) = none := by
  induction fuel with
  | zero => intro k; rfl
  | succ n ih =>
    intro k
    have h : process_loop regC2 instEmpty (n + 1) (c2state k)
        = (match process_loop regC2 instEmpty n (c2state (k + 1)) with
           | none => none
           | some (res, lg') => some (res, ["a"] ++ lg')) := rfl
    rw [h, ih (k + 1)]

/-- Claim C2.  The claim says the worklist always empties after finitely
many batches.  The code disagrees: on `regC2` (a requirement cycle where
the entry for `a` was first created by a version-less optional spec and
therefore never acquires a version) the loop never finishes, whatever
the number of batches allowed. -/
theorem c2_resolution_never_terminates :
    ∀ fuel : Nat, process_dependencies regC2 instEmpty fuel "r" v100 = none := by
  have hst1 : ∀ p, process_loop regC2 instEmpty p c2st1 = none := by
    intro p
    match p with
    | 0 => rfl
    | Nat.succ q =>
      have h : process_loop regC2 instEmpty (q + 1) c2st1
          = (match process_loop regC2 instEmpty q (c2state 2) with
             | none => none
             | some (res, lg') => some (res, ["a"] ++ lg')) := rfl
      rw [h, c2_loop_state q 2]
  have hinit : ∀ n, process_loop regC2 instEmpty n c2init = none := by
    intro n
    match n with
    | 0 => rfl
    | Nat.succ m =>
      have h : process_loop regC2 instEmpty (m + 1) c2init
          = (match process_loop regC2 instEmpty m c2st1 with
             | none => none
             | some (res, lg') => some (res, ["r"] ++ lg')) := rfl
      rw [h, hst1 m]
  intro fuel
  have h : process_dependencies regC2 instEmpty fuel "r" v100
      = (match process_loop regC2 instEmpty fuel c2init with
         | none => none
         | some (Except.error e, lg) => some (Except.error e, lg)
         | some (Except.ok st', lg) =>
           some (Except.ok ((st'.dependencies.filter (fun p => 0 < p.2.usages_count)).map
             (fun x => ⟨x.1, x.2.version, x.2.dependency_type⟩)), lg)) := rfl
  rw [h, hinit fuel]

/-- Claim C3.  The claim says every non-reserved `Require` entry of a
successful resolver output carries a version, so the `unwrap` in
`Changes::compute` cannot panic.  The code disagrees: on `regC3` the
cascade's `remove_usage` seeds an entry for `b` with no version and
count −1, two later version-less `b` demands raise the count to 1, the
entry survives the final filter with no version, and `Changes::compute`
panics (modelled by `none`) unwrapping its absent version. -/
theorem c3_unwrap_panics_on_resolver_output :
    process_dependencies regC3 instEmpty 10 "r" v100 =
      some (Except.ok [⟨"r", some v100, DependencyType.Require⟩,
        ⟨"a", some v200, DependencyType.Require⟩,
        ⟨"b", none, DependencyType.Require⟩], ["r", "a", "a"])
    ∧ Changes.compute instEmpty [⟨"r", some v100, DependencyType.Require⟩,
        ⟨"a", some v200, DependencyType.Require⟩,
        ⟨"b", none, DependencyType.Require⟩] = none :=
  ⟨rfl, rfl⟩

/-- Counterexample to claim C4 as stated: in the `regC4` run the package
id `a` is looked up twice (once for the 1.0.0 demand, once more when the
2.0.0 demand is not satisfied by the stored 1.0.0), so `get_mod` is not
invoked at most once per package id. -/
theorem c4_counterexample_two_lookups_for_one_id :
    (process_dependencies regC4 instEmpty 10 "r" v100).map
      (fun p => p.2.count "a") = some 2 := rfl

end Fmods


namespace Fmods

theorem lookupDep_nil (i : String) : lookupDep [] i = none := rfl

theorem lookupDep_cons (a : String × ExtendedDependency)
    (m : List (String × ExtendedDependency)) (i : String) :
    lookupDep (a :: m) i = if a.1 = i then some a.2 else lookupDep m i := by
  by_cases h : a.1 = i
  · simp [lookupDep, List.find?_cons, h]
  · simp [lookupDep, List.find?_cons, h]

theorem modifyDep_cons (a : String × ExtendedDependency)
    (m : List (String × ExtendedDependency)) (k : String)
    (f : ExtendedDependency → ExtendedDependency) :
    modifyDep (a :: m) k f
      = (if a.1 = k then (a.1, f a.2) else a) :: modifyDep m k f := by
  by_cases h : a.1 = k
  · simp [modifyDep, h]
  · simp [modifyDep, h]

theorem lookupDep_append (m : List (String × ExtendedDependency)) (k : String)
    (v : ExtendedDependency) (i : String) :
    lookupDep (m ++ [(k, v)]) i =
      match lookupDep m i with
      | some e => some e
      | none => if k = i then some v else none := by
  induction m with
  | nil => simp [lookupDep_cons, lookupDep_nil]
  | cons a m ih =>
    rw [List.cons_append, lookupDep_cons, lookupDep_cons]
    by_cases h : a.1 = i
    · simp [h]
    · simp [h, ih]

theorem lookupDep_modifyDep (m : List (String × ExtendedDependency)) (k : String)
    (f : ExtendedDependency → ExtendedDependency) (i : String) :
    lookupDep (modifyDep m k f) i =
      if k = i then (lookupDep m i).map f else lookupDep m i := by
  induction m with
  | nil => by_cases h : k = i <;> simp [modifyDep, lookupDep_nil, h]
  | cons a m ih =>
    rw [modifyDep_cons, lookupDep_cons, lookupDep_cons]
    by_cases hak : a.1 = k
    · rw [if_pos hak]
      by_cases hki : k = i
      · have hai : a.1 = i := by rw [hak, hki]
        rw [if_pos hki]
        rw [show ((a.1, f a.2) : String × ExtendedDependency).1 = a.1 from rfl]
        rw [if_pos hai, if_pos hai]
        rfl
      · have hai : ¬ a.1 = i := fun hc => hki (by rw [← hak, hc])
        rw [if_neg hki]
        rw [show ((a.1, f a.2) : String × ExtendedDependency).1 = a.1 from rfl]
        rw [if_neg hai, if_neg hai, ih, if_neg hki]
    · rw [if_neg hak]
      by_cases hai : a.1 = i
      · have hki : ¬ k = i := fun hc => hak (by rw [hai, hc])
        rw [if_pos hai, if_pos hai, if_neg hki]
      · rw [if_neg hai, if_neg hai, ih]

end Fmods

namespace Fmods

theorem remove_usage_need (st : ProcState) (d : Dependency) :
    (remove_usage st d).need_process = st.need_process := by
  unfold remove_usage
  cases lookupDep st.dependencies d.mod_id <;> rfl

theorem remove_usage_preserves (st : ProcState) (d : Dependency) (i : String)
    (e : ExtendedDependency) (h : lookupDep st.dependencies i = some e) :
    ∃ e', lookupDep (remove_usage st d).dependencies i = some e'
      ∧ e'.version = e.version ∧ e'.dependency_type = e.dependency_type := by
  unfold remove_usage
  cases hm : lookupDep st.dependencies d.mod_id with
  | some e0 =>
    simp only [lookupDep_modifyDep]
    by_cases hdi : d.mod_id = i
    · rw [if_pos hdi, h]
      exact ⟨drop_usage e, rfl, rfl, rfl⟩
    · rw [if_neg hdi]
      exact ⟨e, h, rfl, rfl⟩
  | none =>
    simp only [lookupDep_append, h]
    exact ⟨e, rfl, rfl, rfl⟩

theorem foldl_remove_usage_preserves (ds : List Dependency) (st : ProcState)
    (i : String) (e : ExtendedDependency)
    (h : lookupDep st.dependencies i = some e) :
    ∃ e', lookupDep ((ds.foldl remove_usage st).dependencies) i = some e'
      ∧ e'.version = e.version ∧ e'.dependency_type = e.dependency_type := by
  induction ds generalizing st e with
  | nil => exact ⟨e, h, rfl, rfl⟩
  | cons d ds ih =>
    obtain ⟨e1, h1, hv1, ht1⟩ := remove_usage_preserves st d i e h
    obtain ⟨e2, h2, hv2, ht2⟩ := ih (remove_usage st d) e1 h1
    exact ⟨e2, h2, hv2.trans hv1, ht2.trans ht1⟩

theorem merge_entry_type (dep : Dependency) (e : ExtendedDependency) :
    (merge_entry dep e).dependency_type = e.dependency_type := rfl

theorem merge_entry_none (dep : Dependency) (e : ExtendedDependency)
    (h : e.version = none) : (merge_entry dep e).version = none := by
  unfold merge_entry
  rw [h]

theorem add_dependency_preserves (st : ProcState) (d : Dependency)
    (mi : Option ModInfo) (i : String) (e : ExtendedDependency)
    (h : lookupDep st.dependencies i = some e) :
    ∃ e', lookupDep (add_dependency st d mi).dependencies i = some e'
      ∧ e'.dependency_type = e.dependency_type
      ∧ (e.version = none → e'.version = none) := by
  unfold add_dependency
  cases hm : lookupDep st.dependencies d.mod_id with
  | some e0 =>
    simp only []
    have hstep : ∃ e', lookupDep (modifyDep st.dependencies d.mod_id (merge_entry d)) i
          = some e'
        ∧ e'.dependency_type = e.dependency_type
        ∧ (e.version = none → e'.version = none) := by
      rw [lookupDep_modifyDep]
      by_cases hdi : d.mod_id = i
      · rw [if_pos hdi, h]
        exact ⟨merge_entry d e, rfl, merge_entry_type d e, merge_entry_none d e⟩
      · rw [if_neg hdi]
        exact ⟨e, h, rfl, fun hv => hv⟩
    obtain ⟨e1, h1, ht1, hv1⟩ := hstep
    cases hrem : removals_for e0 d mi with
    | none => exact ⟨e1, h1, ht1, hv1⟩
    | some ds =>
      obtain ⟨e2, h2, hv2, ht2⟩ := foldl_remove_usage_preserves ds
        { st with dependencies := modifyDep st.dependencies d.mod_id (merge_entry d) }
        i e1 h1
      exact ⟨e2, h2, ht2.trans ht1, fun hv => hv2.trans (hv1 hv)⟩
  | none =>
    simp only [lookupDep_append, h]
    exact ⟨e, rfl, rfl, fun hv => hv⟩

theorem check_satisfied_shape (inst : Instance) (st : ProcState) (dep : Dependency) :
    (check_satisfied inst st dep).2 = st
    ∨ check_satisfied inst st dep
        = (true,
           { st with dependencies := modifyDep st.dependencies dep.mod_id bump_usage }) := by
  simp only [check_satisfied]
  split
  · left; rfl
  · split
    · split
      · left; rfl
      · split
        · right; rfl
        · left; rfl
    · left; rfl

theorem check_satisfied_false_eq (inst : Instance) (st : ProcState) (dep : Dependency)
    (h : (check_satisfied inst st dep).1 = false) :
    check_satisfied inst st dep = (false, st) := by
  rcases check_satisfied_shape inst st dep with h2 | h2
  · have : check_satisfied inst st dep
        = ((check_satisfied inst st dep).1, (check_satisfied inst st dep).2) := rfl
    rw [this, h, h2]
  · rw [h2] at h
    cases h

theorem check_satisfied_need (inst : Instance) (st : ProcState) (dep : Dependency) :
    (check_satisfied inst st dep).2.need_process = st.need_process := by
  rcases check_satisfied_shape inst st dep with h | h
  · rw [h]
  · rw [h]

theorem check_satisfied_preserves (inst : Instance) (st : ProcState) (dep : Dependency)
    (i : String) (e : ExtendedDependency)
    (h : lookupDep st.dependencies i = some e) :
    ∃ e', lookupDep (check_satisfied inst st dep).2.dependencies i = some e'
      ∧ e'.version = e.version ∧ e'.dependency_type = e.dependency_type := by
  rcases check_satisfied_shape inst st dep with h2 | h2
  · rw [h2]; exact ⟨e, h, rfl, rfl⟩
  · rw [h2]
    simp only [lookupDep_modifyDep]
    by_cases hdi : dep.mod_id = i
    · rw [if_pos hdi, h]
      exact ⟨bump_usage e, rfl, rfl, rfl⟩
    · rw [if_neg hdi]
      exact ⟨e, h, rfl, rfl⟩

end Fmods

namespace Fmods

/-- Claim C10.  Once a resolution entry exists for a package id, a
successful `process_dependency` step (hence any later merge, satisfaction
check or cascade decrement it performs) never changes the entry's
recorded dependency kind, and an absent stored version is never replaced
by a version. -/
theorem c10_entry_kind_and_absent_version_stable
    (reg : Registry) (inst : Instance) (st st' : ProcState) (dep : Dependency)
    (lg : List String) (i : String) (e : ExtendedDependency)
    (h : lookupDep st.dependencies i = some e)
    (hrun : process_dependency reg inst st dep = (Except.ok st', lg)) :
    ∃ e', lookupDep st'.dependencies i = some e'
      ∧ e'.dependency_type = e.dependency_type
      ∧ (e.version = none → e'.version = none) := by
  have key : ∀ (st1 : ProcState) (dep1 : Dependency) (mi1 : Option ModInfo),
      st1.dependencies = st.dependencies → add_dependency st1 dep1 mi1 = st' →
      ∃ e', lookupDep st'.dependencies i = some e'
        ∧ e'.dependency_type = e.dependency_type
        ∧ (e.version = none → e'.version = none) := by
    intro st1 dep1 mi1 hd hadd
    obtain ⟨e', h', ht', hv'⟩ := add_dependency_preserves st1 dep1 mi1 i e
      (by rw [hd]; exact h)
    rw [hadd] at h'
    exact ⟨e', h', ht', hv'⟩
  simp only [process_dependency] at hrun
  by_cases hsat : (check_satisfied inst st dep).1 = true
  · rw [if_pos hsat] at hrun
    have hst : (check_satisfied inst st dep).2 = st' :=
      Except.ok.inj (congrArg Prod.fst hrun)
    rw [← hst]
    obtain ⟨e', h', hv', ht'⟩ := check_satisfied_preserves inst st dep i e h
    exact ⟨e', h', ht', fun hv => hv'.trans hv⟩
  · rw [if_neg hsat] at hrun
    have hfalse : check_satisfied inst st dep = (false, st) :=
      check_satisfied_false_eq inst st dep (by
        cases hb : (check_satisfied inst st dep).1
        · rfl
        · exact absurd hb hsat)
    split at hrun
    · split at hrun
      · exact key _ _ _ (by rw [hfalse]) (Except.ok.inj (congrArg Prod.fst hrun))
      · split at hrun
        · exact absurd (congrArg Prod.fst hrun) (by simp)
        · split at hrun
          · exact absurd (congrArg Prod.fst hrun) (by simp)
          · exact key _ _ _ (by rw [hfalse]) (Except.ok.inj (congrArg Prod.fst hrun))
    · exact key _ _ _ (by rw [hfalse]) (Except.ok.inj (congrArg Prod.fst hrun))

end Fmods

namespace Fmods

theorem process_dependency_log (reg : Registry) (inst : Instance) (st : ProcState)
    (dep : Dependency) :
    (process_dependency reg inst st dep).2
      = if (check_satisfied inst st dep).1 then []
        else
          match dep.dependency_type with
          | DependencyType.Require =>
            if is_mod_game_content dep.mod_id then [] else [dep.mod_id]
          | _ => [] := by
  simp only [process_dependency]
  by_cases hsat : (check_satisfied inst st dep).1 = true
  · rw [if_pos hsat, if_pos hsat]
  · rw [if_neg hsat, if_neg hsat]
    cases dep.dependency_type with
    | Require =>
      simp only []
      by_cases hgc : is_mod_game_content dep.mod_id = true
      · rw [if_pos hgc, if_pos hgc]
      · rw [if_neg hgc, if_neg hgc]
        cases reg dep.mod_id with
        | none => rfl
        | some mod_info =>
          simp only []
          cases hrel : (match dep.version with
            | some version => mod_info.releases.find? (fun x => x.version == version)
            | none => mod_info.releases.getLast? : Option ModRelease) with
          | none => rfl
          | some mod_release => rfl
    | Conflict => rfl
    | Optional => rfl

end Fmods

namespace Fmods

/-- Claim C4 (amended).  Each processed spec performs at most one
registry lookup, every lookup is for that spec's package id, and a
lookup happens only when the spec is not already satisfied and is a
non-reserved `Require` spec.  (The original claim's "at most once per
package id per run" is refuted by `c4_counterexample_two_lookups_for_one_id`.) -/
theorem c4_amended_lookup_per_spec_only_when_unsatisfied (reg : Registry) (inst : Instance) (st : ProcState)
    (dep : Dependency) :
    ((process_dependency reg inst st dep).2.length ≤ 1)
    ∧ (∀ i ∈ (process_dependency reg inst st dep).2, i = dep.mod_id)
    ∧ ((process_dependency reg inst st dep).2 ≠ [] →
        (check_satisfied inst st dep).1 = false
        ∧ dep.dependency_type = DependencyType.Require
        ∧ is_mod_game_content dep.mod_id = false) := by
  have hl := process_dependency_log reg inst st dep
  rw [hl]
  by_cases hsat : (check_satisfied inst st dep).1 = true
  · rw [if_pos hsat]
    refine ⟨by simp, by simp, ?_⟩
    intro hne
    exact absurd rfl hne
  · rw [if_neg hsat]
    have hsatf : (check_satisfied inst st dep).1 = false := by
      cases hb : (check_satisfied inst st dep).1
      · rfl
      · exact absurd hb hsat
    cases hdt : dep.dependency_type with
    | Require =>
      by_cases hgc : is_mod_game_content dep.mod_id = true
      · rw [if_pos hgc]
        refine ⟨by simp, by simp, ?_⟩
        intro hne
        exact absurd rfl hne
      · rw [if_neg hgc]
        have hgcf : is_mod_game_content dep.mod_id = false := by
          cases hb : is_mod_game_content dep.mod_id
          · rfl
          · exact absurd hb hgc
        refine ⟨by simp, by simp, ?_⟩
        intro _
        exact ⟨hsatf, rfl, hgcf⟩
    | Conflict =>
      refine ⟨by simp, by simp, ?_⟩
      intro hne
      exact absurd rfl hne
    | Optional =>
      refine ⟨by simp, by simp, ?_⟩
      intro hne
      exact absurd rfl hne

theorem compute_fold_none (inst : Instance) (ds : List Dependency) :
    ds.foldl (compute_step inst) none = none := by
  induction ds with
  | nil => rfl
  | cons d ds ih =>
    rw [List.foldl_cons, show compute_step inst none d = none from rfl]
    exact ih

theorem compute_step_ids (inst : Instance) (x : String) (c0 : Changes)
    (d : Dependency) (c1 : Changes) (hd : d.mod_id ≠ x)
    (h1 : ∀ ic ∈ c0.install, ic.id ≠ x) (h2 : ∀ uc ∈ c0.update, uc.id ≠ x)
    (hstep : compute_step inst (some c0) d = some c1) :
    (∀ ic ∈ c1.install, ic.id ≠ x) ∧ (∀ uc ∈ c1.update, uc.id ≠ x) := by
  simp only [compute_step] at hstep
  split at hstep
  · -- Conflict
    split at hstep
    · have hc := Option.some.inj hstep
      subst hc
      exact ⟨h1, h2⟩
    · have hc := Option.some.inj hstep
      subst hc
      exact ⟨h1, h2⟩
  · -- Require
    split at hstep
    · have hc := Option.some.inj hstep
      subst hc
      exact ⟨h1, h2⟩
    · split at hstep
      · cases hstep
      · split at hstep
        · split at hstep
          · have hc := Option.some.inj hstep
            subst hc
            refine ⟨h1, ?_⟩
            intro uc huc
            rcases List.mem_append.mp huc with hmem | hmem
            · exact h2 uc hmem
            · rcases List.mem_singleton.mp hmem with rfl
              exact hd
          · have hc := Option.some.inj hstep
            subst hc
            exact ⟨h1, h2⟩
        · have hc := Option.some.inj hstep
          subst hc
          refine ⟨?_, h2⟩
          intro ic hic
          rcases List.mem_append.mp hic with hmem | hmem
          · exact h1 ic hmem
          · rcases List.mem_singleton.mp hmem with rfl
            exact hd
  · -- Optional
    have hc := Option.some.inj hstep
    subst hc
    exact ⟨h1, h2⟩

theorem compute_fold_ids (inst : Instance) (x : String) :
    ∀ (deps : List Dependency) (c0 c : Changes),
      (∀ d ∈ deps, d.mod_id ≠ x) →
      (∀ ic ∈ c0.install, ic.id ≠ x) → (∀ uc ∈ c0.update, uc.id ≠ x) →
      deps.foldl (compute_step inst) (some c0) = some c →
      (∀ ic ∈ c.install, ic.id ≠ x) ∧ (∀ uc ∈ c.update, uc.id ≠ x) := by
  intro deps
  induction deps with
  | nil =>
    intro c0 c _ h1 h2 hfold
    have hc := Option.some.inj hfold
    subst hc
    exact ⟨h1, h2⟩
  | cons d ds ih =>
    intro c0 c hx h1 h2 hfold
    rw [List.foldl_cons] at hfold
    cases hstep : compute_step inst (some c0) d with
    | none =>
      rw [hstep, compute_fold_none] at hfold
      cases hfold
    | some c1 =>
      rw [hstep] at hfold
      obtain ⟨h1', h2'⟩ := compute_step_ids inst x c0 d c1
        (hx d (List.mem_cons_self d ds)) h1 h2 hstep
      exact ih c1 c (fun d' hd' => hx d' (List.mem_cons_of_mem d hd')) h1' h2' hfold

theorem compute_ids (inst : Instance) (deps : List Dependency) (x : String)
    (hx : ∀ d ∈ deps, d.mod_id ≠ x) (c : Changes)
    (hc : Changes.compute inst deps = some c) :
    (∀ ic ∈ c.install, ic.id ≠ x) ∧ (∀ uc ∈ c.update, uc.id ≠ x) := by
  exact compute_fold_ids inst x deps ⟨[], [], []⟩ c hx
    (by intro ic h; cases h) (by intro uc h; cases h) hc

end Fmods

namespace Fmods

/-- Claim C6.  If `x` is installed at 3.0.0, processing a `Require x >=
2.0.0` spec performs no registry lookup and leaves the resolver state
unchanged (so `x` never enters the output through it), and the planner
emits no install or update action for an id that does not occur in the
resolved set it consumes. -/
theorem c6_installed_satisfies_no_lookup_no_actions (reg : Registry) (inst : Instance) (st : ProcState)
    (im : InstalledMod)
    (hfind : inst.mods.find? (fun m => m.name == "x") = some im)
    (hv : im.version = v300) :
    process_dependency reg inst st ⟨"x", some v200, DependencyType.Require⟩
      = (Except.ok st, [])
    ∧ ∀ deps c, (∀ d ∈ deps, d.mod_id ≠ "x") → Changes.compute inst deps = some c →
        (∀ ic ∈ c.install, ic.id ≠ "x") ∧ (∀ uc ∈ c.update, uc.id ≠ "x") := by
  have hcs : check_satisfied inst st ⟨"x", some v200, DependencyType.Require⟩
      = (true, st) := by
    simp only [check_satisfied, hfind, hv]
    rfl
  refine ⟨?_, ?_⟩
  · simp only [process_dependency, hcs]
    rfl
  · intro deps c hx hc
    exact compute_ids inst deps "x" hx c hc

end Fmods

namespace Fmods

theorem add_dependency_version_after (st0 : ProcState) (dep : Dependency)
    (mi_opt : Option ModInfo) (e0 : ExtendedDependency)
    (hlk : lookupDep st0.dependencies dep.mod_id = some e0) :
    ∃ e, lookupDep (add_dependency st0 dep mi_opt).dependencies dep.mod_id = some e
      ∧ e.version = (merge_entry dep e0).version := by
  unfold add_dependency
  rw [hlk]
  simp only []
  have hm : lookupDep (modifyDep st0.dependencies dep.mod_id (merge_entry dep))
      dep.mod_id = some (merge_entry dep e0) := by
    rw [lookupDep_modifyDep, if_pos rfl, hlk]
    rfl
  cases removals_for e0 dep mi_opt with
  | none => exact ⟨merge_entry dep e0, hm, rfl⟩
  | some ds =>
    obtain ⟨e2, h2, hv2, _⟩ := foldl_remove_usage_preserves ds
      { st0 with dependencies := modifyDep st0.dependencies dep.mod_id (merge_entry dep) }
      dep.mod_id (merge_entry dep e0) hm
    exact ⟨e2, h2, hv2⟩

/-- Claim C5.  If package `a` (not installed, not yet resolved) is
demanded at 1.0.0 via one spec and at 2.0.0 via another and the registry
carries both releases, then whatever the order in which the two demands
are processed, the resolution entry for `a` ends at exactly 2.0.0. -/
theorem c5_version_merge_order_independent_max (reg : Registry) (inst : Instance) (st : ProcState)
    (mi : ModInfo) (r1 r2 : ModRelease)
    (hinst : inst.mods.find? (fun m => m.name == "a") = none)
    (hst : lookupDep st.dependencies "a" = none)
    (hreg : reg "a" = some mi)
    (h1 : mi.releases.find? (fun x => x.version == v100) = some r1)
    (h2 : mi.releases.find? (fun x => x.version == v200) = some r2) :
    (∀ st₁ st₂ lg₁ lg₂,
      process_dependency reg inst st ⟨"a", some v100, DependencyType.Require⟩
        = (Except.ok st₁, lg₁) →
      process_dependency reg inst st₁ ⟨"a", some v200, DependencyType.Require⟩
        = (Except.ok st₂, lg₂) →
      ∃ e, lookupDep st₂.dependencies "a" = some e ∧ e.version = some v200)
    ∧ (∀ st₁ st₂ lg₁ lg₂,
      process_dependency reg inst st ⟨"a", some v200, DependencyType.Require⟩
        = (Except.ok st₁, lg₁) →
      process_dependency reg inst st₁ ⟨"a", some v100, DependencyType.Require⟩
        = (Except.ok st₂, lg₂) →
      ∃ e, lookupDep st₂.dependencies "a" = some e ∧ e.version = some v200) := by
  have hb1 := List.find?_some h1
  have hb2 := List.find?_some h2
  have hr1v : r1.version = v100 := beq_iff_eq.mp hb1
  have hr2v : r2.version = v200 := beq_iff_eq.mp hb2
  constructor
  · intro st₁ st₂ lg₁ lg₂ hs1 hs2
    have hcs1 : check_satisfied inst st ⟨"a", some v100, DependencyType.Require⟩
        = (false, st) := by
      simp only [check_satisfied, hinst, hst]
      rfl
    have hpd1 : process_dependency reg inst st ⟨"a", some v100, DependencyType.Require⟩
        = (Except.ok ⟨st.need_process ++ r1.info_json.dependencies,
            st.dependencies ++ [("a", ⟨some r1.version, DependencyType.Require, 1⟩)]⟩,
           ["a"]) := by
      simp only [process_dependency, hcs1, hreg, h1, add_dependency, hst]
      simp [is_mod_game_content]
    rw [hpd1] at hs1
    have hst₁ : st₁ = ⟨st.need_process ++ r1.info_json.dependencies,
        st.dependencies ++ [("a", ⟨some r1.version, DependencyType.Require, 1⟩)]⟩ :=
      (Except.ok.inj (congrArg Prod.fst hs1)).symm
    subst hst₁
    have hlk1 : lookupDep (st.dependencies
        ++ [("a", ⟨some r1.version, DependencyType.Require, 1⟩)]) "a"
        = some ⟨some r1.version, DependencyType.Require, 1⟩ := by
      rw [lookupDep_append, hst]
      rfl
    have hcs2 : check_satisfied inst
        ⟨st.need_process ++ r1.info_json.dependencies,
         st.dependencies ++ [("a", ⟨some r1.version, DependencyType.Require, 1⟩)]⟩
        ⟨"a", some v200, DependencyType.Require⟩
        = (false, ⟨st.need_process ++ r1.info_json.dependencies,
            st.dependencies ++ [("a", ⟨some r1.version, DependencyType.Require, 1⟩)]⟩) := by
      have hvge : vge r1.version v200 = false := by rw [hr1v]; rfl
      simp only [check_satisfied, hinst, hlk1, hvge]
      rfl
    have hpd2 : process_dependency reg inst
        ⟨st.need_process ++ r1.info_json.dependencies,
         st.dependencies ++ [("a", ⟨some r1.version, DependencyType.Require, 1⟩)]⟩
        ⟨"a", some v200, DependencyType.Require⟩
        = (Except.ok (add_dependency
            ⟨(st.need_process ++ r1.info_json.dependencies)
                ++ r2.info_json.dependencies,
             st.dependencies ++ [("a", ⟨some r1.version, DependencyType.Require, 1⟩)]⟩
            ⟨"a", some r2.version, DependencyType.Require⟩ (some mi)), ["a"]) := by
      simp only [process_dependency, hcs2, hreg, h2]
      simp [is_mod_game_content]
    rw [hpd2] at hs2
    have hst₂ : st₂ = add_dependency
        ⟨(st.need_process ++ r1.info_json.dependencies) ++ r2.info_json.dependencies,
         st.dependencies ++ [("a", ⟨some r1.version, DependencyType.Require, 1⟩)]⟩
        ⟨"a", some r2.version, DependencyType.Require⟩ (some mi) :=
      (Except.ok.inj (congrArg Prod.fst hs2)).symm
    subst hst₂
    obtain ⟨e, he, hev⟩ := add_dependency_version_after
      ⟨(st.need_process ++ r1.info_json.dependencies) ++ r2.info_json.dependencies,
       st.dependencies ++ [("a", ⟨some r1.version, DependencyType.Require, 1⟩)]⟩
      ⟨"a", some r2.version, DependencyType.Require⟩ (some mi)
      ⟨some r1.version, DependencyType.Require, 1⟩ hlk1
    refine ⟨e, he, ?_⟩
    rw [hev]
    simp only [merge_entry, hr1v, hr2v]
    rfl
  · intro st₁ st₂ lg₁ lg₂ hs1 hs2
    have hcs1 : check_satisfied inst st ⟨"a", some v200, DependencyType.Require⟩
        = (false, st) := by
      simp only [check_satisfied, hinst, hst]
      rfl
    have hpd1 : process_dependency reg inst st ⟨"a", some v200, DependencyType.Require⟩
        = (Except.ok ⟨st.need_process ++ r2.info_json.dependencies,
            st.dependencies ++ [("a", ⟨some r2.version, DependencyType.Require, 1⟩)]⟩,
           ["a"]) := by
      simp only [process_dependency, hcs1, hreg, h2, add_dependency, hst]
      simp [is_mod_game_content]
    rw [hpd1] at hs1
    have hst₁ : st₁ = ⟨st.need_process ++ r2.info_json.dependencies,
        st.dependencies ++ [("a", ⟨some r2.version, DependencyType.Require, 1⟩)]⟩ :=
      (Except.ok.inj (congrArg Prod.fst hs1)).symm
    subst hst₁
    have hlk1 : lookupDep (st.dependencies
        ++ [("a", ⟨some r2.version, DependencyType.Require, 1⟩)]) "a"
        = some ⟨some r2.version, DependencyType.Require, 1⟩ := by
      rw [lookupDep_append, hst]
      rfl
    have hcs2 : check_satisfied inst
        ⟨st.need_process ++ r2.info_json.dependencies,
         st.dependencies ++ [("a", ⟨some r2.version, DependencyType.Require, 1⟩)]⟩
        ⟨"a", some v100, DependencyType.Require⟩
        = (true, ⟨st.need_process ++ r2.info_json.dependencies,
            modifyDep (st.dependencies
              ++ [("a", ⟨some r2.version, DependencyType.Require, 1⟩)]) "a" bump_usage⟩) := by
      have hvge : vge r2.version v100 = true := by rw [hr2v]; rfl
      simp only [check_satisfied, hinst, hlk1, hvge]
      rfl
    have hpd2 : process_dependency reg inst
        ⟨st.need_process ++ r2.info_json.dependencies,
         st.dependencies ++ [("a", ⟨some r2.version, DependencyType.Require, 1⟩)]⟩
        ⟨"a", some v100, DependencyType.Require⟩
        = (Except.ok ⟨st.need_process ++ r2.info_json.dependencies,
            modifyDep (st.dependencies
              ++ [("a", ⟨some r2.version, DependencyType.Require, 1⟩)]) "a" bump_usage⟩,
           []) := by
      simp only [process_dependency, hcs2]
      simp
    rw [hpd2] at hs2
    have hst₂ : st₂ = ⟨st.need_process ++ r2.info_json.dependencies,
        modifyDep (st.dependencies
          ++ [("a", ⟨some r2.version, DependencyType.Require, 1⟩)]) "a" bump_usage⟩ :=
      (Except.ok.inj (congrArg Prod.fst hs2)).symm
    subst hst₂
    refine ⟨bump_usage ⟨some r2.version, DependencyType.Require, 1⟩, ?_, ?_⟩
    · show lookupDep (modifyDep (st.dependencies
        ++ [("a", ⟨some r2.version, DependencyType.Require, 1⟩)]) "a" bump_usage) "a"
        = some (bump_usage ⟨some r2.version, DependencyType.Require, 1⟩)
      rw [lookupDep_modifyDep, if_pos rfl, hlk1]
      rfl
    · show (bump_usage ⟨some r2.version, DependencyType.Require, 1⟩).version = some v200
      simp [bump_usage, hr2v]

end Fmods

namespace Fmods

/-- Claim C7.  For an unsatisfied, non-reserved `Require` spec: with an
explicit version the resolver picks the release whose version equals it
exactly and fails with `CantFoundSuitableRelease` exactly when no such
release exists; with no version it picks the last release of the
ascending list and fails exactly when the list is empty; and when a
spec's processing fails, the whole worklist loop returns that error
immediately (no resolved set). -/
theorem c7_release_selection_and_error_propagation (reg : Registry) (inst : Instance) (st : ProcState)
    (dep : Dependency) (mi : ModInfo)
    (hsat : (check_satisfied inst st dep).1 = false)
    (hty : dep.dependency_type = DependencyType.Require)
    (hgc : is_mod_game_content dep.mod_id = false)
    (hreg : reg dep.mod_id = some mi) :
    (∀ v, dep.version = some v →
      ((process_dependency reg inst st dep
          = (Except.error (Error.CantFoundSuitableRelease dep.mod_id), [dep.mod_id]))
        ↔ ∀ r ∈ mi.releases, r.version ≠ v)
      ∧ (∀ r, mi.releases.find? (fun x => x.version == v) = some r →
          lookupDep st.dependencies dep.mod_id = none →
          ∃ st₂, process_dependency reg inst st dep = (Except.ok st₂, [dep.mod_id])
            ∧ lookupDep st₂.dependencies dep.mod_id
                = some ⟨some r.version, DependencyType.Require, 1⟩))
    ∧ (dep.version = none →
      ((process_dependency reg inst st dep
          = (Except.error (Error.CantFoundSuitableRelease dep.mod_id), [dep.mod_id]))
        ↔ mi.releases = [])
      ∧ (∀ r, mi.releases.getLast? = some r →
          lookupDep st.dependencies dep.mod_id = none →
          ∃ st₂, process_dependency reg inst st dep = (Except.ok st₂, [dep.mod_id])
            ∧ lookupDep st₂.dependencies dep.mod_id
                = some ⟨some r.version, DependencyType.Require, 1⟩))
    ∧ (∀ (fuel : Nat) (st₀ : ProcState) (d₀ : Dependency) (rest : List Dependency)
        (e : Error) (lg : List String),
        st₀.need_process = d₀ :: rest →
        process_dependency reg inst { st₀ with need_process := [] } d₀
          = (Except.error e, lg) →
        process_loop reg inst (fuel + 1) st₀ = some (Except.error e, lg)) := by
  have hfalse : check_satisfied inst st dep = (false, st) :=
    check_satisfied_false_eq inst st dep hsat
  have hchar : process_dependency reg inst st dep
      = (match (match dep.version with
           | some version => mi.releases.find? (fun x => x.version == version)
           | none => mi.releases.getLast? : Option ModRelease) with
         | none => (Except.error (Error.CantFoundSuitableRelease dep.mod_id), [dep.mod_id])
         | some mod_release =>
           (Except.ok (add_dependency
             { st with need_process := st.need_process ++ mod_release.info_json.dependencies }
             { dep with version := some mod_release.version } (some mi)),
            [dep.mod_id])) := by
    simp only [process_dependency, hfalse, hty, hgc, hreg]
    simp
  have hinsert : ∀ (r : ModRelease),
      lookupDep st.dependencies dep.mod_id = none →
      lookupDep (add_dependency
        { st with need_process := st.need_process ++ r.info_json.dependencies }
        { dep with version := some r.version } (some mi)).dependencies dep.mod_id
        = some ⟨some r.version, dep.dependency_type, 1⟩ := by
    intro r hfresh
    simp only [add_dependency]
    rw [show ({ dep with version := some r.version } : Dependency).mod_id = dep.mod_id
      from rfl]
    rw [show ({ st with need_process := st.need_process ++ r.info_json.dependencies }
        : ProcState).dependencies = st.dependencies from rfl]
    rw [hfresh]
    simp only [lookupDep_append, hfresh]
    simp
  refine ⟨?_, ?_, ?_⟩
  · intro v hv
    rw [hv] at hchar
    have hchar2 : process_dependency reg inst st dep
        = (match mi.releases.find? (fun x => x.version == v) with
           | none => (Except.error (Error.CantFoundSuitableRelease dep.mod_id), [dep.mod_id])
           | some mod_release =>
             (Except.ok (add_dependency
               { st with need_process :=
                   st.need_process ++ mod_release.info_json.dependencies }
               { dep with version := some mod_release.version } (some mi)),
              [dep.mod_id])) := by
      rw [hchar]
    clear hchar
    constructor
    · constructor
      · intro herr
        intro r hr hrv
        cases hfind : mi.releases.find? (fun x => x.version == v) with
        | none =>
          have : ¬ ((fun x => x.version == v) r = true) :=
            List.find?_eq_none.mp hfind r hr
          exact this (by simp [hrv])
        | some r0 =>
          rw [hfind] at hchar2
          rw [hchar2] at herr
          cases herr
      · intro hall
        cases hfind : mi.releases.find? (fun x => x.version == v) with
        | none =>
          rw [hfind] at hchar2
          exact hchar2
        | some r0 =>
          have hmem := List.mem_of_find?_eq_some hfind
          have hbeq := List.find?_some hfind
          have : r0.version = v := beq_iff_eq.mp hbeq
          exact absurd this (hall r0 hmem)
    · intro r hfind hfresh
      rw [hfind] at hchar2
      refine ⟨_, hchar2, ?_⟩
      rw [hinsert r hfresh, hty]
  · intro hv
    rw [hv] at hchar
    have hchar2 : process_dependency reg inst st dep
        = (match mi.releases.getLast? with
           | none => (Except.error (Error.CantFoundSuitableRelease dep.mod_id), [dep.mod_id])
           | some mod_release =>
             (Except.ok (add_dependency
               { st with need_process :=
                   st.need_process ++ mod_release.info_json.dependencies }
               { dep with version := some mod_release.version } (some mi)),
              [dep.mod_id])) := by
      rw [hchar]
    clear hchar
    constructor
    · constructor
      · intro herr
        cases hlast : mi.releases.getLast? with
        | none => exact List.getLast?_eq_none_iff.mp hlast
        | some r0 =>
          rw [hlast] at hchar2
          rw [hchar2] at herr
          cases herr
      · intro hnil
        rw [hnil] at hchar2
        exact hchar2
    · intro r hlast hfresh
      rw [hlast] at hchar2
      refine ⟨_, hchar2, ?_⟩
      rw [hinsert r hfresh, hty]
  · intro fuel st₀ d₀ rest e lg hneed herr
    have hloop : process_loop reg inst (fuel + 1) st₀
        = (if st₀.need_process.isEmpty then some (Except.ok st₀, [])
           else
             match process_batch reg inst { st₀ with need_process := [] }
                 st₀.need_process with
             | (Except.error e, lg) => some (Except.error e, lg)
             | (Except.ok st', lg) =>
               match process_loop reg inst fuel st' with
               | none => none
               | some (res, lg') => some (res, lg ++ lg')) := rfl
    rw [hloop, hneed]
    have hbatch : process_batch reg inst { st₀ with need_process := [] } (d₀ :: rest)
        = (Except.error e, lg) := by
      simp only [process_batch, herr]
    rw [show (d₀ :: rest).isEmpty = false from rfl, if_neg Bool.false_ne_true, hbatch]

end Fmods

namespace Fmods

/-! Lemmas about the version-string parser. -/

theorem digitsVal_digits (cs : List Char) :
    ∀ (acc : Nat) (n : Nat), digitsVal cs acc = some n → ∀ c ∈ cs, c.isDigit = true := by
  induction cs with
  | nil => intro acc n _ c hc; cases hc
  | cons c0 rest ih =>
    intro acc n h c hc
    simp only [digitsVal] at h
    by_cases hd : c0.isDigit = true
    · rw [if_pos hd] at h
      rcases List.mem_cons.mp hc with rfl | hmem
      · exact hd
      · exact ih _ n h c hmem
    · rw [if_neg hd] at h
      cases h

theorem digitsToNat_digits (cs : List Char) (n : Nat) (h : digitsToNat cs = some n) :
    ∀ c ∈ cs, c.isDigit = true := by
  simp only [digitsToNat] at h
  by_cases he : cs.isEmpty
  · rw [if_pos he] at h; cases h
  · rw [if_neg he] at h
    exact digitsVal_digits cs 0 n h

theorem digitsToNat_ne_nil (cs : List Char) (n : Nat) (h : digitsToNat cs = some n) :
    cs ≠ [] := by
  intro hc
  subst hc
  simp [digitsToNat] at h

theorem parse_i64_of_digits (cs : List Char) (n : Nat) (h : digitsToNat cs = some n)
    (hb : n < 2 ^ 63) :
    parse_i64 cs = some (Int.ofNat n) := by
  cases cs with
  | nil => exact absurd rfl (digitsToNat_ne_nil [] n h)
  | cons c rest =>
    have hd : c.isDigit = true :=
      digitsToNat_digits (c :: rest) n h c (List.mem_cons_self c rest)
    have hplus : c ≠ '+' := by
      intro hc; subst hc; exact absurd hd (by decide)
    have hminus : c ≠ '-' := by
      intro hc; subst hc; exact absurd hd (by decide)
    unfold parse_i64
    split
    · rename_i heq
      exact absurd (List.head_eq_of_cons_eq heq.symm).symm hplus
    · rename_i heq
      exact absurd (List.head_eq_of_cons_eq heq.symm).symm hminus
    · rw [h]
      show (if n < 2 ^ 63 then some (Int.ofNat n) else none) = some (Int.ofNat n)
      rw [if_pos hb]

theorem splitOnChar_sep_free (sep : Char) (l : List Char)
    (h : ∀ c ∈ l, c ≠ sep) : splitOnChar sep l = [l] := by
  induction l with
  | nil => rfl
  | cons c rest ih =>
    have hc : c ≠ sep := h c (List.mem_cons_self c rest)
    simp only [splitOnChar, if_neg hc]
    rw [ih (fun c' hc' => h c' (List.mem_cons_of_mem c hc'))]

theorem splitOnChar_append (sep : Char) (l₁ l₂ : List Char)
    (h : ∀ c ∈ l₁, c ≠ sep) :
    splitOnChar sep (l₁ ++ sep :: l₂) = l₁ :: splitOnChar sep l₂ := by
  induction l₁ with
  | nil => simp [splitOnChar]
  | cons c rest ih =>
    have hc : c ≠ sep := h c (List.mem_cons_self c rest)
    simp only [List.cons_append, splitOnChar, if_neg hc, List.append_eq]
    rw [ih (fun c' hc' => h c' (List.mem_cons_of_mem c hc'))]

theorem digit_ne_dot (c : Char) (h : c.isDigit = true) : c ≠ '.' := by
  intro hc; subst hc; exact absurd h (by decide)

theorem version_from_str_one_part (sa : List Char) (a : Nat)
    (ha : digitsToNat sa = some a) (hba : a < 2 ^ 63) :
    Version.from_str sa = some ⟨Int.ofNat a, 0, 0⟩ := by
  have hsplit : splitOnChar '.' sa = [sa] :=
    splitOnChar_sep_free '.' sa
      (fun c hc => digit_ne_dot c (digitsToNat_digits sa a ha c hc))
  calc Version.from_str sa
      = (match parse_i64 sa, (some 0 : Option Int), (some 0 : Option Int) with
         | some major, some minor, some patch => some ⟨major, minor, patch⟩
         | _, _, _ => none) := by
        simp only [Version.from_str, hsplit]
        rfl
    _ = some ⟨Int.ofNat a, 0, 0⟩ := by
        rw [parse_i64_of_digits sa a ha hba]

theorem version_from_str_two_parts (sa sb : List Char) (a b : Nat)
    (ha : digitsToNat sa = some a) (hba : a < 2 ^ 63)
    (hb : digitsToNat sb = some b) (hbb : b < 2 ^ 63) :
    Version.from_str (sa ++ '.' :: sb) = some ⟨Int.ofNat a, Int.ofNat b, 0⟩ := by
  have hsb : splitOnChar '.' sb = [sb] :=
    splitOnChar_sep_free '.' sb
      (fun c hc => digit_ne_dot c (digitsToNat_digits sb b hb c hc))
  have hsplit : splitOnChar '.' (sa ++ '.' :: sb) = [sa, sb] := by
    rw [splitOnChar_append '.' sa sb
      (fun c hc => digit_ne_dot c (digitsToNat_digits sa a ha c hc)), hsb]
  calc Version.from_str (sa ++ '.' :: sb)
      = (match parse_i64 sa, parse_i64 sb, (some 0 : Option Int) with
         | some major, some minor, some patch => some ⟨major, minor, patch⟩
         | _, _, _ => none) := by
        simp only [Version.from_str, hsplit]
        rfl
    _ = some ⟨Int.ofNat a, Int.ofNat b, 0⟩ := by
        rw [parse_i64_of_digits sa a ha hba, parse_i64_of_digits sb b hb hbb]

theorem version_from_str_three_parts (sa sb sc : List Char) (a b c : Nat)
    (ha : digitsToNat sa = some a) (hba : a < 2 ^ 63)
    (hb : digitsToNat sb = some b) (hbb : b < 2 ^ 63)
    (hc : digitsToNat sc = some c) (hbc : c < 2 ^ 63) :
    Version.from_str (sa ++ '.' :: (sb ++ '.' :: sc))
      = some ⟨Int.ofNat a, Int.ofNat b, Int.ofNat c⟩ := by
  have hsc : splitOnChar '.' sc = [sc] :=
    splitOnChar_sep_free '.' sc
      (fun x hx => digit_ne_dot x (digitsToNat_digits sc c hc x hx))
  have hsplit : splitOnChar '.' (sa ++ '.' :: (sb ++ '.' :: sc)) = [sa, sb, sc] := by
    rw [splitOnChar_append '.' sa (sb ++ '.' :: sc)
      (fun x hx => digit_ne_dot x (digitsToNat_digits sa a ha x hx))]
    rw [splitOnChar_append '.' sb sc
      (fun x hx => digit_ne_dot x (digitsToNat_digits sb b hb x hx)), hsc]
  calc Version.from_str (sa ++ '.' :: (sb ++ '.' :: sc))
      = (match parse_i64 sa, parse_i64 sb, parse_i64 sc with
         | some major, some minor, some patch => some ⟨major, minor, patch⟩
         | _, _, _ => none) := by
        simp only [Version.from_str, hsplit]
        rfl
    _ = some ⟨Int.ofNat a, Int.ofNat b, Int.ofNat c⟩ := by
        rw [parse_i64_of_digits sa a ha hba, parse_i64_of_digits sb b hb hbb,
            parse_i64_of_digits sc c hc hbc]

theorem version_cmp_eq_iff (v w : Version) :
    Version.cmp v w = Ordering.eq ↔ v = w := by
  obtain ⟨a, b, c⟩ := v
  obtain ⟨d, e, f⟩ := w
  simp only [Version.cmp, Version.mk.injEq]
  split_ifs <;> simp_all

theorem version_cmp_gt_iff (v w : Version) :
    Version.cmp v w = Ordering.gt ↔
      (w.major < v.major
        ∨ (w.major = v.major
            ∧ (w.minor < v.minor
                ∨ (w.minor = v.minor ∧ w.patch < v.patch)))) := by
  obtain ⟨a, b, c⟩ := v
  obtain ⟨d, e, f⟩ := w
  simp only [Version.cmp]
  split_ifs <;> simp_all <;> omega

end Fmods

namespace Fmods

/-! Lemmas about the requirement-spec parser. -/

theorem strip_special_wrap (cs : List Char) :
    strip_special ('(' :: cs ++ [')']) = strip_special cs := by
  simp [strip_special, List.filter_append]

theorem strip_special_tilde (cs : List Char) :
    strip_special (cs ++ ['~']) = strip_special cs := by
  simp [strip_special, List.filter_append]

theorem from_str_wrap (cs : List Char) :
    Dependency.from_str ('(' :: cs ++ [')']) = Dependency.from_str cs := by
  simp only [Dependency.from_str, strip_special_wrap]

theorem from_str_tilde (cs : List Char) :
    Dependency.from_str (cs ++ ['~']) = Dependency.from_str cs := by
  simp only [Dependency.from_str, strip_special_tilde]

theorem from_str_kind (s : List Char) (d : Dependency)
    (h : Dependency.from_str s = some d) :
    d.dependency_type = dep_kind_of (strip_special s) := by
  simp only [Dependency.from_str] at h
  split at h
  · split at h
    · cases h
    · rw [← Option.some.inj h]
  · rw [← Option.some.inj h]

theorem dep_kind_of_not_marker (l : List Char)
    (h1 : l.head? ≠ some '!') (h2 : l.head? ≠ some '?') :
    dep_kind_of l = DependencyType.Require := by
  cases l with
  | nil => rfl
  | cons c rest =>
    have hc1 : c ≠ '!' := fun hc => h1 (by rw [hc]; rfl)
    have hc2 : c ≠ '?' := fun hc => h2 (by rw [hc]; rfl)
    unfold dep_kind_of
    split
    · rename_i heq
      exact absurd (List.head_eq_of_cons_eq heq.symm).symm hc1
    · rename_i heq
      exact absurd (List.head_eq_of_cons_eq heq.symm).symm hc2
    · rfl

theorem splitGe_ne_nil (l : List Char) : splitGe l ≠ [] := by
  cases l with
  | nil => simp [splitGe]
  | cons c1 rest =>
    cases rest with
    | nil => simp [splitGe]
    | cons c2 rest' =>
      simp only [splitGe]
      split
      · simp
      · split <;> simp

theorem splitGe_append (a b : List Char) (ha : splitGe a = [a]) :
    splitGe (a ++ '>' :: '=' :: b) = a :: splitGe b := by
  induction a with
  | nil => simp [splitGe]
  | cons c a' ih =>
    cases a' with
    | nil =>
      simp [splitGe]
    | cons c2 a'' =>
      have hfacts : ¬(c = '>' ∧ c2 = '=') ∧ splitGe (c2 :: a'') = [c2 :: a''] := by
        simp only [splitGe] at ha
        by_cases hcond : c = '>' ∧ c2 = '='
        · rw [if_pos hcond] at ha
          exact absurd (List.cons.inj ha).1.symm (List.cons_ne_nil c (c2 :: a''))
        · rw [if_neg hcond] at ha
          cases hsg : splitGe (c2 :: a'') with
          | nil => exact absurd hsg (splitGe_ne_nil _)
          | cons p ps =>
            rw [hsg] at ha
            obtain ⟨h1, h2⟩ := List.cons.inj ha
            obtain ⟨_, h3⟩ := List.cons.inj h1
            subst h2
            subst h3
            exact ⟨hcond, rfl⟩
      obtain ⟨hcond, ha'⟩ := hfacts
      have ih' := ih ha'
      simp only [List.cons_append] at ih' ⊢
      simp only [splitGe]
      rw [if_neg hcond]
      rw [ih']

end Fmods

namespace Fmods

theorem strip_special_bang (cs : List Char) :
    strip_special ('!' :: cs) = '!' :: strip_special cs := by
  simp [strip_special]

theorem strip_special_quest (cs : List Char) :
    strip_special ('?' :: cs) = '?' :: strip_special cs := by
  simp [strip_special]

theorem keep_special (c : Char) (h1 : c ≠ '(') (h2 : c ≠ ')') (h3 : c ≠ '~') :
    (!(c == '(' || c == ')' || c == '~')) = true := by
  simp [h1, h2, h3]

theorem keep_marks (c : Char) (h1 : c ≠ '!') (h2 : c ≠ '?') :
    (!(c == '!' || c == '?')) = true := by
  simp [h1, h2]

theorem not_mem_specials (c : Char)
    (h : c ∉ (['(', ')', '~', '!', '?'] : List Char)) :
    c ≠ '(' ∧ c ≠ ')' ∧ c ≠ '~' ∧ c ≠ '!' ∧ c ≠ '?' := by
  simp only [List.mem_cons, List.mem_singleton, not_or] at h
  exact ⟨h.1, h.2.1, h.2.2.1, h.2.2.2.1, h.2.2.2.2.1⟩

theorem from_str_ge_once (idcs vcs : List Char) (ver : Version)
    (hid : ∀ c ∈ idcs, c ∉ (['(', ')', '~', '!', '?'] : List Char))
    (hvc : ∀ c ∈ vcs, c ∉ (['(', ')', '~', '!', '?'] : List Char))
    (hids : splitGe idcs = [idcs])
    (hvcs : splitGe vcs = [vcs])
    (hver : Version.from_str (trimChars vcs) = some ver) :
    Dependency.from_str (idcs ++ '>' :: '=' :: vcs)
      = some ⟨String.mk (trimChars idcs), some ver, DependencyType.Require⟩ := by
  have hspecial : strip_special (idcs ++ '>' :: '=' :: vcs)
      = idcs ++ '>' :: '=' :: vcs := by
    apply List.filter_eq_self.mpr
    intro c hc
    rcases List.mem_append.mp hc with hm | hm
    · obtain ⟨k1, k2, k3, _, _⟩ := not_mem_specials c (hid c hm)
      exact keep_special c k1 k2 k3
    · rcases List.mem_cons.mp hm with rfl | hm
      · decide
      · rcases List.mem_cons.mp hm with rfl | hm
        · decide
        · obtain ⟨k1, k2, k3, _, _⟩ := not_mem_specials c (hvc c hm)
          exact keep_special c k1 k2 k3
  have hmarks : strip_marks (idcs ++ '>' :: '=' :: vcs)
      = idcs ++ '>' :: '=' :: vcs := by
    apply List.filter_eq_self.mpr
    intro c hc
    rcases List.mem_append.mp hc with hm | hm
    · obtain ⟨_, _, _, k4, k5⟩ := not_mem_specials c (hid c hm)
      exact keep_marks c k4 k5
    · rcases List.mem_cons.mp hm with rfl | hm
      · decide
      · rcases List.mem_cons.mp hm with rfl | hm
        · decide
        · obtain ⟨_, _, _, k4, k5⟩ := not_mem_specials c (hvc c hm)
          exact keep_marks c k4 k5
  have hkind : dep_kind_of (idcs ++ '>' :: '=' :: vcs) = DependencyType.Require := by
    cases idcs with
    | nil =>
      apply dep_kind_of_not_marker <;> simp
    | cons c rest =>
      obtain ⟨_, _, _, k4, k5⟩ :=
        not_mem_specials c (hid c (List.mem_cons_self c rest))
      apply dep_kind_of_not_marker
      · simp only [List.cons_append, List.head?]
        intro hcon
        exact k4 (Option.some.inj hcon)
      · simp only [List.cons_append, List.head?]
        intro hcon
        exact k5 (Option.some.inj hcon)
  have hsplit : splitGe (idcs ++ '>' :: '=' :: vcs) = [idcs, vcs] := by
    rw [splitGe_append idcs vcs hids, hvcs]
  calc Dependency.from_str (idcs ++ '>' :: '=' :: vcs)
      = (match Version.from_str (trimChars vcs) with
         | none => none
         | some v => some ⟨String.mk (trimChars idcs), some v,
             dep_kind_of (idcs ++ '>' :: '=' :: vcs)⟩) := by
        simp only [Dependency.from_str, hspecial, hmarks, hsplit]
    _ = some ⟨String.mk (trimChars idcs), some ver, DependencyType.Require⟩ := by
        rw [hver, hkind]

theorem from_str_ge_once_conflict (idcs vcs : List Char) (ver : Version)
    (hid : ∀ c ∈ idcs, c ∉ (['(', ')', '~', '!', '?'] : List Char))
    (hvc : ∀ c ∈ vcs, c ∉ (['(', ')', '~', '!', '?'] : List Char))
    (hids : splitGe idcs = [idcs])
    (hvcs : splitGe vcs = [vcs])
    (hver : Version.from_str (trimChars vcs) = some ver) :
    Dependency.from_str ('!' :: (idcs ++ '>' :: '=' :: vcs))
      = some ⟨String.mk (trimChars idcs), some ver, DependencyType.Conflict⟩ := by
  have hspecial : strip_special (idcs ++ '>' :: '=' :: vcs)
      = idcs ++ '>' :: '=' :: vcs := by
    apply List.filter_eq_self.mpr
    intro c hc
    rcases List.mem_append.mp hc with hm | hm
    · obtain ⟨k1, k2, k3, _, _⟩ := not_mem_specials c (hid c hm)
      exact keep_special c k1 k2 k3
    · rcases List.mem_cons.mp hm with rfl | hm
      · decide
      · rcases List.mem_cons.mp hm with rfl | hm
        · decide
        · obtain ⟨k1, k2, k3, _, _⟩ := not_mem_specials c (hvc c hm)
          exact keep_special c k1 k2 k3
  have hmarks : strip_marks ('!' :: (idcs ++ '>' :: '=' :: vcs))
      = idcs ++ '>' :: '=' :: vcs := by
    have hrest : strip_marks (idcs ++ '>' :: '=' :: vcs)
        = idcs ++ '>' :: '=' :: vcs := by
      apply List.filter_eq_self.mpr
      intro c hc
      rcases List.mem_append.mp hc with hm | hm
      · obtain ⟨_, _, _, k4, k5⟩ := not_mem_specials c (hid c hm)
        exact keep_marks c k4 k5
      · rcases List.mem_cons.mp hm with rfl | hm
        · decide
        · rcases List.mem_cons.mp hm with rfl | hm
          · decide
          · obtain ⟨_, _, _, k4, k5⟩ := not_mem_specials c (hvc c hm)
            exact keep_marks c k4 k5
    calc strip_marks ('!' :: (idcs ++ '>' :: '=' :: vcs))
        = strip_marks (idcs ++ '>' :: '=' :: vcs) := by simp [strip_marks]
      _ = idcs ++ '>' :: '=' :: vcs := hrest
  have hsplit : splitGe (idcs ++ '>' :: '=' :: vcs) = [idcs, vcs] := by
    rw [splitGe_append idcs vcs hids, hvcs]
  calc Dependency.from_str ('!' :: (idcs ++ '>' :: '=' :: vcs))
      = (match Version.from_str (trimChars vcs) with
         | none => none
         | some v => some ⟨String.mk (trimChars idcs), some v,
             dep_kind_of ('!' :: (idcs ++ '>' :: '=' :: vcs))⟩) := by
        simp only [Dependency.from_str, strip_special_bang, hspecial, hmarks, hsplit]
    _ = some ⟨String.mk (trimChars idcs), some ver, DependencyType.Conflict⟩ := by
        rw [hver]
        rfl

end Fmods

namespace Fmods

/-- Counterexample to claim C8 as stated: the string
`"9223372036854775808"` is of the form `major` (a single digit
component), yet it does not parse into a triple, because its value is
`2^63` and `i64::from_str` overflows (`i64::MAX` is `2^63 - 1`). -/
theorem c8_counterexample_overflow_component :
    Version.from_str "9223372036854775808".toList = none := rfl

/-- Claim C8 (amended).  `"1.2"` parses to (1,2,0); (2,0,0) > (1,9,9);
(1,2,3) = (1,2,3); `cmp` answers `eq` exactly on equal triples and `gt`
exactly on lexicographically greater triples; and digit strings of the
form `a`, `a.b`, `a.b.c` whose component values fit in an `i64` (are
below `2^63`) parse with missing trailing components defaulting to zero.
(The unbounded form of the claim fails on components of `2^63` or more,
where `i64::from_str` errors: see `c8_counterexample_overflow_component`.) -/
theorem c8_version_parse_and_order :
    (Version.from_str "1.2".toList = some ⟨1, 2, 0⟩)
    ∧ (vgt ⟨2, 0, 0⟩ ⟨1, 9, 9⟩ = true)
    ∧ (Version.cmp ⟨1, 2, 3⟩ ⟨1, 2, 3⟩ = Ordering.eq)
    ∧ (∀ v w : Version, Version.cmp v w = Ordering.eq ↔ v = w)
    ∧ (∀ v w : Version, Version.cmp v w = Ordering.gt ↔
        (w.major < v.major
          ∨ (w.major = v.major
              ∧ (w.minor < v.minor
                  ∨ (w.minor = v.minor ∧ w.patch < v.patch)))))
    ∧ (∀ (sa : List Char) (a : Nat), digitsToNat sa = some a → a < 2 ^ 63 →
        Version.from_str sa = some ⟨Int.ofNat a, 0, 0⟩)
    ∧ (∀ (sa sb : List Char) (a b : Nat),
        digitsToNat sa = some a → a < 2 ^ 63 →
        digitsToNat sb = some b → b < 2 ^ 63 →
        Version.from_str (sa ++ '.' :: sb) = some ⟨Int.ofNat a, Int.ofNat b, 0⟩)
    ∧ (∀ (sa sb sc : List Char) (a b c : Nat),
        digitsToNat sa = some a → a < 2 ^ 63 →
        digitsToNat sb = some b → b < 2 ^ 63 →
        digitsToNat sc = some c → c < 2 ^ 63 →
        Version.from_str (sa ++ '.' :: (sb ++ '.' :: sc))
          = some ⟨Int.ofNat a, Int.ofNat b, Int.ofNat c⟩) :=
  ⟨rfl, rfl, rfl, version_cmp_eq_iff, version_cmp_gt_iff,
   version_from_str_one_part, version_from_str_two_parts,
   version_from_str_three_parts⟩

/-- Witness for C8: the two-part defaulting conjunct evaluated on
`"3.4"`. -/
theorem c8_version_parse_and_order_witness :
    Version.from_str "3.4".toList = some ⟨3, 4, 0⟩ :=
  c8_version_parse_and_order.2.2.2.2.2.2.1 "3".toList "4".toList 3 4
    (by decide) (by decide) (by decide) (by decide)

/-- Claim C9.  A leading `!` parses as `Conflict`, a leading `?` as
`Optional`, no leading marker (after stripping) as `Require`; wrapping
parentheses and a trailing `~` never change the parse; and a body
containing `>=` exactly once parses into the trimmed id before it and
the version after it (with or without a leading marker). -/
theorem c9_requirement_spec_grammar :
    (∀ (cs : List Char) (d : Dependency), Dependency.from_str ('!' :: cs) = some d →
      d.dependency_type = DependencyType.Conflict)
    ∧ (∀ (cs : List Char) (d : Dependency), Dependency.from_str ('?' :: cs) = some d →
      d.dependency_type = DependencyType.Optional)
    ∧ (∀ (cs : List Char) (d : Dependency),
      (strip_special cs).head? ≠ some '!' → (strip_special cs).head? ≠ some '?' →
      Dependency.from_str cs = some d → d.dependency_type = DependencyType.Require)
    ∧ (∀ cs : List Char, Dependency.from_str ('(' :: cs ++ [')'])
        = Dependency.from_str cs)
    ∧ (∀ cs : List Char, Dependency.from_str (cs ++ ['~']) = Dependency.from_str cs)
    ∧ (∀ (idcs vcs : List Char) (ver : Version),
      (∀ c ∈ idcs, c ∉ (['(', ')', '~', '!', '?'] : List Char)) →
      (∀ c ∈ vcs, c ∉ (['(', ')', '~', '!', '?'] : List Char)) →
      splitGe idcs = [idcs] → splitGe vcs = [vcs] →
      Version.from_str (trimChars vcs) = some ver →
      Dependency.from_str (idcs ++ '>' :: '=' :: vcs)
        = some ⟨String.mk (trimChars idcs), some ver, DependencyType.Require⟩)
    ∧ (∀ (idcs vcs : List Char) (ver : Version),
      (∀ c ∈ idcs, c ∉ (['(', ')', '~', '!', '?'] : List Char)) →
      (∀ c ∈ vcs, c ∉ (['(', ')', '~', '!', '?'] : List Char)) →
      splitGe idcs = [idcs] → splitGe vcs = [vcs] →
      Version.from_str (trimChars vcs) = some ver →
      Dependency.from_str ('!' :: (idcs ++ '>' :: '=' :: vcs))
        = some ⟨String.mk (trimChars idcs), some ver, DependencyType.Conflict⟩) := by
  refine ⟨?_, ?_, ?_, from_str_wrap, from_str_tilde, from_str_ge_once,
    from_str_ge_once_conflict⟩
  · intro cs d h
    rw [from_str_kind _ _ h, strip_special_bang]
    rfl
  · intro cs d h
    rw [from_str_kind _ _ h, strip_special_quest]
    rfl
  · intro cs d h1 h2 h
    rw [from_str_kind _ _ h]
    exact dep_kind_of_not_marker _ h1 h2

/-- Witness for C9: the exactly-once conjunct evaluated on
`"abc >= 1.2"`. -/
theorem c9_requirement_spec_grammar_witness :
    Dependency.from_str "abc >= 1.2".toList
      = some ⟨"abc", some ⟨1, 2, 0⟩, DependencyType.Require⟩ :=
  c9_requirement_spec_grammar.2.2.2.2.2.1 "abc ".toList " 1.2".toList ⟨1, 2, 0⟩
    (by decide) (by decide) (by decide) (by decide) (by decide)

end Fmods

namespace Fmods

/-- Witness for C4 (amended): the lone `Require a` spec against an empty
snapshot and empty state is unsatisfied, non-reserved, and its processing
performs a lookup. -/
theorem c4_amended_witness :
    (check_satisfied instEmpty ⟨[], []⟩
      ⟨"a", none, DependencyType.Require⟩).1 = false
    ∧ (⟨"a", none, DependencyType.Require⟩ : Dependency).dependency_type
        = DependencyType.Require
    ∧ is_mod_game_content "a" = false :=
  (c4_amended_lookup_per_spec_only_when_unsatisfied (fun _ => none) instEmpty
    ⟨[], []⟩ ⟨"a", none, DependencyType.Require⟩).2.2 (by decide)

/-- Witness for C5: both orders of the 1.0.0 and 2.0.0 demands for `a`
against `regAB` end with `a` resolved at 2.0.0. -/
theorem c5_witness :
    ∃ e, lookupDep [("a", ⟨some v200, DependencyType.Require, 2⟩)] "a" = some e
      ∧ e.version = some v200 :=
  (c5_version_merge_order_independent_max regAB instEmpty ⟨[], []⟩
      ⟨[⟨v100, ⟨[], fv⟩⟩, ⟨v200, ⟨[], fv⟩⟩]⟩ ⟨v100, ⟨[], fv⟩⟩ ⟨v200, ⟨[], fv⟩⟩
      rfl rfl rfl rfl rfl).1
    ⟨[], [("a", ⟨some v100, DependencyType.Require, 1⟩)]⟩
    ⟨[], [("a", ⟨some v200, DependencyType.Require, 2⟩)]⟩
    ["a"] ["a"] rfl rfl

/-- Witness for C6: `x` installed at 3.0.0, the `x >= 2.0.0` spec is a
no-op with no lookup. -/
theorem c6_witness :
    process_dependency (fun _ => none) ⟨[⟨v300, "x"⟩]⟩ ⟨[], []⟩
      ⟨"x", some v200, DependencyType.Require⟩ = (Except.ok ⟨[], []⟩, []) :=
  (c6_installed_satisfies_no_lookup_no_actions (fun _ => none) ⟨[⟨v300, "x"⟩]⟩
    ⟨[], []⟩ ⟨v300, "x"⟩ rfl rfl).1

/-- Witness for C7: requesting `m` at exactly 2.0.0 when only 1.0.0 is
published fails with `CantFoundSuitableRelease`. -/
theorem c7_witness :
    process_dependency regW instEmpty ⟨[], []⟩
        ⟨"m", some v200, DependencyType.Require⟩
      = (Except.error (Error.CantFoundSuitableRelease "m"), ["m"]) :=
  (((c7_release_selection_and_error_propagation regW instEmpty ⟨[], []⟩
      ⟨"m", some v200, DependencyType.Require⟩ ⟨[⟨v100, ⟨[], fv⟩⟩]⟩
      rfl rfl rfl rfl).1 v200 rfl).1).mpr (by decide)

/-- Witness for C10: processing a fresh `Conflict q` spec leaves the
pre-existing version-less `Optional p` entry untouched. -/
theorem c10_witness :
    ∃ e', lookupDep [("p", ⟨none, DependencyType.Optional, 1⟩),
        ("q", ⟨none, DependencyType.Conflict, 1⟩)] "p" = some e'
      ∧ e'.dependency_type = (⟨none, DependencyType.Optional, 1⟩
          : ExtendedDependency).dependency_type
      ∧ ((⟨none, DependencyType.Optional, 1⟩ : ExtendedDependency).version = none →
          e'.version = none) :=
  c10_entry_kind_and_absent_version_stable (fun _ => none) instEmpty
    ⟨[], [("p", ⟨none, DependencyType.Optional, 1⟩)]⟩
    ⟨[], [("p", ⟨none, DependencyType.Optional, 1⟩),
          ("q", ⟨none, DependencyType.Conflict, 1⟩)]⟩
    ⟨"q", none, DependencyType.Conflict⟩ [] "p"
    ⟨none, DependencyType.Optional, 1⟩ rfl rfl

end Fmods
